import Mathlib

/-!
Shallow embedding of the itsdangerous signing/serialization core.

The repository ships only its test suite and packaging metadata under
`src/`; the library modules themselves (encoding utilities, signer,
serializer, error taxonomy) are not present.  All operational
definitions below are therefore modelled from the specification
document (`spec.md`), section by section, and each such definition says
so in its doc comment.

Byte strings are lists of naturals; a well-formed byte has value
below 256, and theorems carry that bound as a hypothesis where the
encoding layer needs it.
-/

/-- Byte strings as lists of naturals. -/
abbrev Bytes := List Nat

/-- The default separator byte, ASCII code of the dot character. -/
def sepByte : Nat := 46

/-- Modelled from the spec (4.1 Encoding Utilities): the URL-safe
base64 alphabet, mapping a 6-bit index to its ASCII code
(`A`-`Z`, `a`-`z`, `0`-`9`, `-`, `_`). -/
def b64Char (i : Nat) : Nat :=
  if i < 26 then 65 + i
  else if i < 52 then 71 + i
  else if i < 62 then i - 4
  else if i = 62 then 45
  else 95

/-- Modelled from the spec (4.1): inverse of the URL-safe base64
alphabet; `none` on a character outside the alphabet. -/
def b64Index (c : Nat) : Option Nat :=
  if 65 ≤ c ∧ c ≤ 90 then some (c - 65)
  else if 97 ≤ c ∧ c ≤ 122 then some (c - 71)
  else if 48 ≤ c ∧ c ≤ 57 then some (c + 4)
  else if c = 45 then some 62
  else if c = 95 then some 63
  else none

/-- Modelled from the spec (4.1 `encode`): URL-safe base64 encoding of
a byte string with the trailing padding stripped. -/
def b64encode : Bytes → Bytes
  | a :: b :: c :: rest =>
    b64Char (a / 4) :: b64Char (a % 4 * 16 + b / 16) ::
    b64Char (b % 16 * 4 + c / 64) :: b64Char (c % 64) :: b64encode rest
  | [a, b] => [b64Char (a / 4), b64Char (a % 4 * 16 + b / 16), b64Char (b % 16 * 4)]
  | [a] => [b64Char (a / 4), b64Char (a % 4 * 16)]
  | [] => []

/-- Modelled from the spec (4.1 `decode`): inverse of `b64encode`,
reconstructing the padding from the input length; fails (`none`) on a
character outside the alphabet or an invalid length. -/
def b64decode : Bytes → Option Bytes
  | [] => some []
  | [_] => none
  | [w, x] =>
    (b64Index w).bind fun a =>
      (b64Index x).bind fun b =>
        some [a * 4 + b / 16]
  | [w, x, y] =>
    (b64Index w).bind fun a =>
      (b64Index x).bind fun b =>
        (b64Index y).bind fun c =>
          some [a * 4 + b / 16, b % 16 * 16 + c / 4]
  | w :: x :: y :: z :: rest =>
    (b64Index w).bind fun a =>
      (b64Index x).bind fun b =>
        (b64Index y).bind fun c =>
          (b64Index z).bind fun d =>
            (b64decode rest).bind fun r =>
              some ((a * 4 + b / 16) :: (b % 16 * 16 + c / 4) :: (c % 4 * 64 + d) :: r)

/-- A self-delimiting length code: `n` as a run of 255-bytes followed
by the remainder byte.  Auxiliary to the ideal-hash model below. -/
def lenCode (n : Nat) : Bytes := List.replicate (n / 255) 255 ++ [n % 255]

/-- Modelled from the spec (3. Data Model, Digest Method): the
pluggable one-way hash over a byte string.  The spec treats the digest
as an external, swappable collaborator (default SHA-1-class); it is
modelled as an ideal collision-free hash, namely an injective tagged
copy of the message (tag byte 104). -/
def digestBytes (m : Bytes) : Bytes := 104 :: m

/-- Modelled from the spec (4.2, key derivation `hmac` and signature
computation): the keyed-hash construction combining a derived key with
a message.  Modelled as an ideal injective keyed hash: the tag byte
104 followed by the length-prefixed key and the message. -/
def keyedHash (key msg : Bytes) : Bytes :=
  104 :: (lenCode key.length ++ key ++ msg)

/-- Modelled from the spec (4.2): the selectable key-derivation
method; default is `djangoConcat`. -/
inductive KeyDerivation where
  | concat
  | djangoConcat
  | hmacKD

/-- The fixed context word `"signer"` used by django-concat
derivation, as bytes. -/
def signerWord : Bytes := [115, 105, 103, 110, 101, 114]

/-- Modelled from the spec (4.2 key derivation): derive the signing
key from a secret and a salt per the configured method:
`concat` is `hash(secret + salt)`, `django-concat` is
`hash(salt + "signer" + secret)`, `hmac` is `HMAC(key=secret,
message=salt)`. -/
def deriveKey (kd : KeyDerivation) (secret salt : Bytes) : Bytes :=
  match kd with
  | .concat => digestBytes (secret ++ salt)
  | .djangoConcat => digestBytes (salt ++ signerWord ++ secret)
  | .hmacKD => keyedHash secret salt

/-- Modelled from the spec (4.2 Signer, 3. Data Model): a signer
configuration: ordered secret keys (index 0 current), salt, separator
byte, derivation method. -/
structure Signer where
  secretKeys : List Bytes
  salt : Bytes
  sep : Nat
  keyDerivation : KeyDerivation

/-- Modelled from the spec (4.2 `sign`): returns
`value + SEP + encode(signature)` with the signature computed by the
keyed hash under the key derived from the current (index 0) secret
key. -/
def Signer.sign (s : Signer) (value : Bytes) : Bytes :=
  value ++ s.sep ::
    b64encode (keyedHash (deriveKey s.keyDerivation (s.secretKeys.headD []) s.salt) value)

/-- Modelled from the spec (4.2 `verify_signature`): decode the
supplied base64 signature and compare it (byte equality standing in
for the constant-time comparison) against the signature recomputed
under every configured secret key, current key first. -/
def Signer.verifySignature (s : Signer) (value sigB64 : Bytes) : Bool :=
  match b64decode sigB64 with
  | none => false
  | some sig =>
    s.secretKeys.any fun k =>
      sig == keyedHash (deriveKey s.keyDerivation k s.salt) value

/-- Split a byte string at the last occurrence of `sep`; `none` when
`sep` does not occur.  Models splitting on the last separator in
`unsign`. -/
def rsplitLast (sep : Nat) : Bytes → Option (Bytes × Bytes)
  | [] => none
  | b :: rest =>
    match rsplitLast sep rest with
    | some (p, s) => some (b :: p, s)
    | none => if b = sep then some ([], rest) else none

/-- Modelled from the spec (7. Error Handling): the cause carried by a
BadPayload failure, distinguishing a base64-layer decoding error from
a codec-level decode error. -/
inductive DecodeFailure where
  | base64Error
  | codecError

/-- Modelled from the spec (7. Error Handling Design): the failure
taxonomy reachable from the plain (non-timestamp) serializer.
`badSignature` optionally carries the unsigned candidate payload;
`badPayload` carries the undecodable payload and the original decode
error as its cause. -/
inductive LoadError where
  | badSignature (payload : Option Bytes)
  | badPayload (payload : Option Bytes) (originalError : Option DecodeFailure)

/-- The recovered-payload diagnostic field of a failure. -/
def LoadError.payload : LoadError → Option Bytes
  | .badSignature p => p
  | .badPayload p _ => p

/-- The original-cause diagnostic field of a failure. -/
def LoadError.originalError : LoadError → Option DecodeFailure
  | .badSignature _ => none
  | .badPayload _ e => e

/-- Modelled from the spec (4.2 `unsign`): split on the last
separator; no separator means BadSignature with no recovered payload;
a failed verification means BadSignature carrying the candidate
payload segment; success returns the payload segment. -/
def Signer.unsign (s : Signer) (signedValue : Bytes) : Except LoadError Bytes :=
  match rsplitLast s.sep signedValue with
  | none => .error (.badSignature none)
  | some (value, sig) =>
    if s.verifySignature value sig then .ok value
    else .error (.badSignature (some value))

/-- Modelled from the spec (1. Purpose, 8. Testable Properties): the
structured payload values the serializer carries: none/null, booleans,
integers, byte/text strings, lists and dicts (string-keyed). -/
inductive Value where
  | null
  | bool (b : Bool)
  | int (n : Int)
  | str (s : Bytes)
  | list (xs : List Value)
  | dict (entries : List (Bytes × Value))

/-- Modelled from the spec (6. External Interfaces, Codec): the
external data-serialization collaborator: `enc` turns a payload into
bytes, `dec` inverts it and fails (`none`) on malformed input. -/
structure Codec where
  enc : Value → Bytes
  dec : Bytes → Option Value

/-- Escape the quote and backslash bytes inside a JSON string body. -/
def escString : Bytes → Bytes
  | [] => []
  | b :: r =>
    (if b = 34 then [92, 34] else if b = 92 then [92, 92] else [b]) ++ escString r

/-- Decimal digit bytes of a natural number, most significant first
(fuelled auxiliary). -/
def natDigitsAux : Nat → Nat → Bytes
  | 0, _ => []
  | fuel + 1, n =>
    if n < 10 then [48 + n] else natDigitsAux fuel (n / 10) ++ [48 + n % 10]

/-- Decimal digit bytes of a natural number. -/
def natDigits (n : Nat) : Bytes := natDigitsAux (n + 1) n

/-- Decimal byte rendering of an integer, with a leading minus sign
when negative. -/
def intBytes : Int → Bytes
  | .ofNat n => natDigits n
  | .negSucc m => 45 :: natDigits (m + 1)

mutual

/-- A concrete JSON-style codec encoder standing in for the external
data-serialization collaborator used by the tests (same separators as
the reference implementation: comma-space and colon-space). -/
def jsonEncode : Value → Bytes
  | .null => [110, 117, 108, 108]
  | .bool true => [116, 114, 117, 101]
  | .bool false => [102, 97, 108, 115, 101]
  | .int n => intBytes n
  | .str s => 34 :: (escString s ++ [34])
  | .list xs => 91 :: (jsonEncodeItems xs ++ [93])
  | .dict es => 123 :: (jsonEncodeEntries es ++ [125])

/-- Comma-space separated renderings of list items. -/
def jsonEncodeItems : List Value → Bytes
  | [] => []
  | [x] => jsonEncode x
  | x :: y :: rest => jsonEncode x ++ 44 :: 32 :: jsonEncodeItems (y :: rest)

/-- Comma-space separated renderings of dict entries, each a quoted
key, colon-space, and a value. -/
def jsonEncodeEntries : List (Bytes × Value) → Bytes
  | [] => []
  | [(k, v)] => 34 :: (escString k ++ 34 :: 58 :: 32 :: jsonEncode v)
  | (k, v) :: e :: rest =>
    34 :: (escString k ++ 34 :: 58 :: 32 :: jsonEncode v) ++
      44 :: 32 :: jsonEncodeEntries (e :: rest)

end

/-- Parse a JSON string body up to its closing quote, undoing
`escString`; returns the body and the remaining input. -/
def parseStr : Bytes → Option (Bytes × Bytes)
  | [] => none
  | 34 :: r => some ([], r)
  | 92 :: 34 :: r => (parseStr r).map fun p => (34 :: p.1, p.2)
  | 92 :: 92 :: r => (parseStr r).map fun p => (92 :: p.1, p.2)
  | 92 :: _ => none
  | b :: r => (parseStr r).map fun p => (b :: p.1, p.2)

/-- Take the maximal run of leading decimal digit bytes. -/
def takeDigits : Bytes → Bytes × Bytes
  | [] => ([], [])
  | b :: r =>
    if 48 ≤ b ∧ b ≤ 57 then
      let p := takeDigits r
      (b :: p.1, p.2)
    else ([], b :: r)

/-- The natural number denoted by a run of decimal digit bytes. -/
def digitsToNat (ds : Bytes) : Nat :=
  ds.foldl (fun acc b => acc * 10 + (b - 48)) 0

/-- Parse a nonempty run of decimal digits as a natural number. -/
def parseNum (bs : Bytes) : Option (Nat × Bytes) :=
  match takeDigits bs with
  | ([], _) => none
  | (ds, r) => some (digitsToNat ds, r)

mutual

/-- Fuelled recursive-descent parser for the JSON-style codec,
inverting `jsonEncode`; returns the parsed value and remaining
input. -/
def parseVal : Nat → Bytes → Option (Value × Bytes)
  | 0, _ => none
  | fuel + 1, bs =>
    match bs with
    | 110 :: 117 :: 108 :: 108 :: r => some (.null, r)
    | 116 :: 114 :: 117 :: 101 :: r => some (.bool true, r)
    | 102 :: 97 :: 108 :: 115 :: 101 :: r => some (.bool false, r)
    | 34 :: r => (parseStr r).map fun p => (.str p.1, p.2)
    | 91 :: 93 :: r => some (.list [], r)
    | 91 :: r => (parseItems fuel r).map fun p => (.list p.1, p.2)
    | 123 :: 125 :: r => some (.dict [], r)
    | 123 :: r => (parseEntries fuel r).map fun p => (.dict p.1, p.2)
    | 45 :: r => (parseNum r).map fun p => (.int (-(p.1 : Int)), p.2)
    | _ => (parseNum bs).map fun p => (.int (p.1 : Int), p.2)

/-- Parse one or more comma-space separated items followed by the
closing bracket. -/
def parseItems : Nat → Bytes → Option (List Value × Bytes)
  | 0, _ => none
  | fuel + 1, bs =>
    (parseVal fuel bs).bind fun p =>
      match p.2 with
      | 44 :: 32 :: r => (parseItems fuel r).map fun q => (p.1 :: q.1, q.2)
      | 93 :: r => some ([p.1], r)
      | _ => none

/-- Parse one or more comma-space separated quoted-key colon-space
value entries followed by the closing brace. -/
def parseEntries : Nat → Bytes → Option (List (Bytes × Value) × Bytes)
  | 0, _ => none
  | fuel + 1, bs =>
    match bs with
    | 34 :: r =>
      (parseStr r).bind fun kp =>
        match kp.2 with
        | 58 :: 32 :: r2 =>
          (parseVal fuel r2).bind fun vp =>
            match vp.2 with
            | 44 :: 32 :: r3 =>
              (parseEntries fuel r3).map fun q => ((kp.1, vp.1) :: q.1, q.2)
            | 125 :: r3 => some ([(kp.1, vp.1)], r3)
            | _ => none
        | _ => none
    | _ => none

end

/-- The JSON-style codec decoder: a full parse of the input with no
trailing bytes. -/
def jsonDecode (bs : Bytes) : Option Value :=
  match parseVal (bs.length + 1) bs with
  | some (v, []) => some v
  | _ => none

/-- The concrete JSON-style codec. -/
def jsonCodec : Codec := ⟨jsonEncode, jsonDecode⟩

/-- Modelled from the spec (4.4 Serializer, 6. Configuration): a
serializer configuration: the external codec, the secret key, and the
key-derivation method for the signers it builds. -/
structure Serializer where
  codec : Codec
  secretKey : Bytes
  keyDerivation : KeyDerivation

/-- Modelled from the spec (4.4): build the signer for a call, with
the per-call salt and the default dot separator. -/
def Serializer.makeSigner (S : Serializer) (salt : Bytes) : Signer :=
  ⟨[S.secretKey], salt, sepByte, S.keyDerivation⟩

/-- Modelled from the spec (6. Token wire format): the payload segment
is the URL-safe base64 encoding of the codec-serialized payload
bytes. -/
def Serializer.dumpPayload (S : Serializer) (x : Value) : Bytes :=
  b64encode (S.codec.enc x)

/-- Modelled from the spec (4.4 `loads`, 7. Error Handling): decode a
payload segment: undo the base64 layer, then the codec; either
failure is wrapped as BadPayload carrying the raw payload bytes and
the original decode error as cause. -/
def Serializer.loadPayload (S : Serializer) (p : Bytes) : Except LoadError Value :=
  match b64decode p with
  | none => .error (.badPayload (some p) (some .base64Error))
  | some bytes =>
    match S.codec.dec bytes with
    | none => .error (.badPayload (some p) (some .codecError))
    | some v => .ok v

/-- Modelled from the spec (4.4 `dumps`): serialize the payload via
the codec, base64-encode it into the payload segment, and sign it with
the signer built for the given salt. -/
def Serializer.dumps (S : Serializer) (x : Value) (salt : Bytes) : Bytes :=
  (S.makeSigner salt).sign (S.dumpPayload x)

/-- Modelled from the spec (4.4 `loads`): unsign the token with the
signer built for the given salt, then decode the recovered payload
segment. -/
def Serializer.loads (S : Serializer) (t : Bytes) (salt : Bytes) : Except LoadError Value :=
  match (S.makeSigner salt).unsign t with
  | .error e => .error e
  | .ok p => S.loadPayload p

/-- Modelled from the spec (4.4 `loads_unsafe`): the safe-mode load;
never fails: success gives `(true, payload)`; a failure whose error
carries a recoverable payload that still decodes gives `(false, that
payload)`; any other failure gives `(false, none)`. -/
def Serializer.loadsSafe (S : Serializer) (t : Bytes) (salt : Bytes) : Bool × Option Value :=
  match S.loads t salt with
  | .ok v => (true, some v)
  | .error e =>
    match e.payload with
    | none => (false, none)
    | some p =>
      match S.loadPayload p with
      | .ok v => (false, some v)
      | .error _ => (false, none)

/-- Modelled from the test suite's stream variants (`dump`): write the
token for the payload to the end of a byte stream, modelled as the
stream contents. -/
def Serializer.dump (S : Serializer) (x : Value) (salt : Bytes) (f : Bytes) : Bytes :=
  f ++ S.dumps x salt

/-- Modelled from the test suite's stream variants (`load`): load from
the full contents of a byte stream. -/
def Serializer.load (S : Serializer) (f : Bytes) (salt : Bytes) : Except LoadError Value :=
  S.loads f salt

/-- Modelled from the test suite's stream variants (`load_unsafe`):
safe-mode load from the full contents of a byte stream. -/
def Serializer.loadSafe (S : Serializer) (f : Bytes) (salt : Bytes) : Bool × Option Value :=
  S.loadsSafe f salt

/-- Whether a load result is a BadSignature failure. -/
def resultIsBadSignature : Except LoadError Value → Bool
  | .error (.badSignature _) => true
  | _ => false

/-- The secret key used throughout the test suite: `"secret_key"`. -/
def secretKeyBytes : Bytes := [115, 101, 99, 114, 101, 116, 95, 107, 101, 121]

/-- Modelled from the spec (3. Data Model, Salt): the fixed default
salt constant, `"itsdangerous"`. -/
def saltDefault : Bytes := [105, 116, 115, 100, 97, 110, 103, 101, 114, 111, 117, 115]

/-- The alternate salt `"other"` exercised by the salt-isolation
test. -/
def saltOther : Bytes := [111, 116, 104, 101, 114]

/-- A serializer over an arbitrary codec with the test suite's secret
key and the default key-derivation method. -/
def mkSerializer (c : Codec) : Serializer := ⟨c, secretKeyBytes, .djangoConcat⟩

/-- A serializer over an arbitrary codec with the test suite's secret
key and an explicit key-derivation method. -/
def mkSerializerKD (c : Codec) (kd : KeyDerivation) : Serializer := ⟨c, secretKeyBytes, kd⟩

/-- The JSON-codec serializer with the test suite's secret key. -/
def jsonSerializer : Serializer := mkSerializer jsonCodec

/-- The payload `{"id": 42}` used throughout the test suite. -/
def valueId42 : Value := .dict [([105, 100], .int 42)]

/-! ### Lemmas about the encoding layer -/

theorem b64Index_b64Char : ∀ i, i < 64 → b64Index (b64Char i) = some i := by decide

theorem b64Char_props : ∀ i, i < 64 → b64Char i ≠ 46 ∧ b64Char i < 128 := by decide

theorem mem_b64encode {m : Bytes} (hm : ∀ b ∈ m, b < 256) :
    ∀ x ∈ b64encode m, ∃ i, i < 64 ∧ x = b64Char i := by
  induction m using b64encode.induct with
  | case1 a b c rest ih =>
    have ha : a < 256 := hm a (by simp)
    have hb : b < 256 := hm b (by simp)
    have hc : c < 256 := hm c (by simp)
    intro x hx
    simp only [b64encode, List.mem_cons] at hx
    rcases hx with h | h | h | h | h
    · exact ⟨a / 4, by omega, h⟩
    · exact ⟨a % 4 * 16 + b / 16, by omega, h⟩
    · exact ⟨b % 16 * 4 + c / 64, by omega, h⟩
    · exact ⟨c % 64, by omega, h⟩
    · exact ih (fun y hy => hm y (by simp [hy])) x h
  | case2 a b =>
    have ha : a < 256 := hm a (by simp)
    have hb : b < 256 := hm b (by simp)
    intro x hx
    simp only [b64encode, List.mem_cons, List.not_mem_nil, or_false] at hx
    rcases hx with h | h | h
    · exact ⟨a / 4, by omega, h⟩
    · exact ⟨a % 4 * 16 + b / 16, by omega, h⟩
    · exact ⟨b % 16 * 4, by omega, h⟩
  | case3 a =>
    have ha : a < 256 := hm a (by simp)
    intro x hx
    simp only [b64encode, List.mem_cons, List.not_mem_nil, or_false] at hx
    rcases hx with h | h
    · exact ⟨a / 4, by omega, h⟩
    · exact ⟨a % 4 * 16, by omega, h⟩
  | case4 =>
    intro x hx
    simp [b64encode] at hx

theorem sep_not_mem_b64encode {m : Bytes} (hm : ∀ b ∈ m, b < 256) :
    46 ∉ b64encode m := by
  intro h
  obtain ⟨i, hi, hx⟩ := mem_b64encode hm 46 h
  exact (b64Char_props i hi).1 hx.symm

theorem b64decode_b64encode {m : Bytes} (hm : ∀ b ∈ m, b < 256) :
    b64decode (b64encode m) = some m := by
  induction m using b64encode.induct with
  | case1 a b c rest ih =>
    have ha : a < 256 := hm a (by simp)
    have hb : b < 256 := hm b (by simp)
    have hc : c < 256 := hm c (by simp)
    have ih2 := ih (fun y hy => hm y (by simp [hy]))
    simp only [b64encode, b64decode]
    rw [b64Index_b64Char _ (by omega : a / 4 < 64),
        b64Index_b64Char _ (by omega : a % 4 * 16 + b / 16 < 64),
        b64Index_b64Char _ (by omega : b % 16 * 4 + c / 64 < 64),
        b64Index_b64Char _ (by omega : c % 64 < 64), ih2]
    simp only [Option.some_bind, Option.some.injEq, List.cons.injEq]
    exact ⟨by omega, by omega, by omega, trivial⟩
  | case2 a b =>
    have ha : a < 256 := hm a (by simp)
    have hb : b < 256 := hm b (by simp)
    simp only [b64encode, b64decode]
    rw [b64Index_b64Char _ (by omega : a / 4 < 64),
        b64Index_b64Char _ (by omega : a % 4 * 16 + b / 16 < 64),
        b64Index_b64Char _ (by omega : b % 16 * 4 < 64)]
    simp only [Option.some_bind, Option.some.injEq, List.cons.injEq]
    exact ⟨by omega, by omega, trivial⟩
  | case3 a =>
    have ha : a < 256 := hm a (by simp)
    simp only [b64encode, b64decode]
    rw [b64Index_b64Char _ (by omega : a / 4 < 64),
        b64Index_b64Char _ (by omega : a % 4 * 16 < 64)]
    simp only [Option.some_bind, Option.some.injEq, List.cons.injEq]
    exact ⟨by omega, trivial⟩
  | case4 => rfl

theorem b64encode_length (m : Bytes) :
    (b64encode m).length = (4 * m.length + 2) / 3 := by
  induction m using b64encode.induct with
  | case1 a b c rest ih => simp only [b64encode, List.length_cons]; omega
  | case2 a b => simp [b64encode]
  | case3 a => simp [b64encode]
  | case4 => simp [b64encode]

theorem b64decode_some_length {t u : Bytes} (h : b64decode t = some u) :
    t.length % 4 ≠ 1 ∧ u.length = 3 * t.length / 4 := by
  induction t using b64decode.induct generalizing u with
  | case1 =>
    simp only [b64decode, Option.some.injEq] at h
    subst h
    simp
  | case2 w => simp [b64decode] at h
  | case3 w x =>
    rcases hw : b64Index w with _ | a
    · simp [b64decode, hw] at h
    rcases hx : b64Index x with _ | b
    · simp [b64decode, hw, hx] at h
    simp only [b64decode, hw, hx, Option.some_bind, Option.some.injEq] at h
    subst h
    simp
  | case4 w x y =>
    rcases hw : b64Index w with _ | a
    · simp [b64decode, hw] at h
    rcases hx : b64Index x with _ | b
    · simp [b64decode, hw, hx] at h
    rcases hy : b64Index y with _ | c
    · simp [b64decode, hw, hx, hy] at h
    simp only [b64decode, hw, hx, hy, Option.some_bind, Option.some.injEq] at h
    subst h
    simp
  | case5 w x y z rest ih =>
    rcases hw : b64Index w with _ | a
    · simp [b64decode, hw] at h
    rcases hx : b64Index x with _ | b
    · simp [b64decode, hw, hx] at h
    rcases hy : b64Index y with _ | c
    · simp [b64decode, hw, hx, hy] at h
    rcases hz : b64Index z with _ | d
    · simp [b64decode, hw, hx, hy, hz] at h
    rcases hr : b64decode rest with _ | r
    · simp [b64decode, hw, hx, hy, hz, hr] at h
    simp only [b64decode, hw, hx, hy, hz, hr, Option.some_bind, Option.some.injEq] at h
    subst h
    have := ih hr
    simp only [List.length_cons]
    omega

/-! ### Lemmas about the ideal hash and key derivation -/

theorem mem_keyedHash_lt {k v : Bytes} (hk : ∀ b ∈ k, b < 256) (hv : ∀ b ∈ v, b < 256) :
    ∀ b ∈ keyedHash k v, b < 256 := by
  intro b hb
  simp only [keyedHash] at hb
  rcases List.mem_cons.mp hb with rfl | hb2
  · omega
  rcases List.mem_append.mp hb2 with h1 | h2
  · rcases List.mem_append.mp h1 with h3 | h4
    · simp only [lenCode] at h3
      rcases List.mem_append.mp h3 with h5 | h6
      · have := List.eq_of_mem_replicate h5
        omega
      · simp only [List.mem_singleton] at h6
        omega
    · exact hk b h4
  · exact hv b h2

theorem keyedHash_length (k v : Bytes) :
    (keyedHash k v).length = 1 + (k.length / 255 + 1) + k.length + v.length := by
  simp [keyedHash, lenCode]
  omega

theorem keyedHash_inj_msg {k v w : Bytes} (h : keyedHash k v = keyedHash k w) : v = w := by
  simp only [keyedHash, List.cons.injEq, true_and] at h
  exact List.append_cancel_left h

theorem keyedHash_ne_of_key_ne {k k' v : Bytes} (h : k ≠ k') :
    keyedHash k v ≠ keyedHash k' v := by
  intro he
  have hl := congrArg List.length he
  rw [keyedHash_length, keyedHash_length] at hl
  have hlen : k.length = k'.length := by omega
  apply h
  simp only [keyedHash, hlen, List.cons.injEq, true_and] at he
  exact List.append_cancel_left (List.append_cancel_right he)

theorem mem_deriveKey_lt {kd : KeyDerivation} {secret salt : Bytes}
    (hs : ∀ b ∈ secret, b < 256) (ht : ∀ b ∈ salt, b < 256) :
    ∀ b ∈ deriveKey kd secret salt, b < 256 := by
  cases kd with
  | concat =>
    intro b hb
    simp only [deriveKey, digestBytes] at hb
    rcases List.mem_cons.mp hb with rfl | hb2
    · omega
    rcases List.mem_append.mp hb2 with h1 | h2
    · exact hs b h1
    · exact ht b h2
  | djangoConcat =>
    intro b hb
    simp only [deriveKey, digestBytes] at hb
    rcases List.mem_cons.mp hb with rfl | hb2
    · omega
    rcases List.mem_append.mp hb2 with h1 | h2
    · rcases List.mem_append.mp h1 with h3 | h4
      · exact ht b h3
      · simp only [signerWord, List.mem_cons, List.not_mem_nil, or_false] at h4
        omega
    · exact hs b h2
  | hmacKD => exact mem_keyedHash_lt hs ht

theorem deriveKey_django_inj_salt {secret a b : Bytes} (h : a ≠ b) :
    deriveKey .djangoConcat secret a ≠ deriveKey .djangoConcat secret b := by
  intro he
  apply h
  simp only [deriveKey, digestBytes, List.cons.injEq, true_and, List.append_assoc] at he
  exact List.append_cancel_right he

/-! ### Lemmas about separator splitting -/

theorem rsplitLast_of_not_mem {sep : Nat} {l : Bytes} (h : sep ∉ l) :
    rsplitLast sep l = none := by
  induction l with
  | nil => rfl
  | cons b rest ih =>
    simp only [List.mem_cons, not_or] at h
    simp only [rsplitLast, ih h.2]
    rw [if_neg (fun hh => h.1 hh.symm)]

theorem rsplitLast_append {sep : Nat} (p : Bytes) {s : Bytes} (hs : sep ∉ s) :
    rsplitLast sep (p ++ sep :: s) = some (p, s) := by
  induction p with
  | nil => simp [rsplitLast, rsplitLast_of_not_mem hs]
  | cons b rest ih => simp [rsplitLast, ih]

/-! ### Central serializer lemmas -/

theorem mem_b64encode_lt128 {m : Bytes} (hm : ∀ b ∈ m, b < 256) :
    ∀ x ∈ b64encode m, x < 128 := by
  intro x hx
  obtain ⟨i, hi, rfl⟩ := mem_b64encode hm x hx
  exact (b64Char_props i hi).2

theorem mem_b64encode_lt256 {m : Bytes} (hm : ∀ b ∈ m, b < 256) :
    ∀ x ∈ b64encode m, x < 256 := by
  intro x hx
  have := mem_b64encode_lt128 hm x hx
  omega

theorem secretKeyBytes_lt : ∀ b ∈ secretKeyBytes, b < 256 := by decide

/-- A token that splits as payload, dot, signature loads by checking
that signature against that payload: success decodes the payload,
failure is BadSignature carrying it. -/
theorem loads_append (S : Serializer) (v s salt : Bytes) (hs : 46 ∉ s) :
    S.loads (v ++ 46 :: s) salt =
      if (S.makeSigner salt).verifySignature v s then S.loadPayload v
      else .error (.badSignature (some v)) := by
  have hsplit : rsplitLast (S.makeSigner salt).sep (v ++ 46 :: s) = some (v, s) :=
    rsplitLast_append v hs
  simp only [Serializer.loads, Signer.unsign, hsplit]
  cases hver : (S.makeSigner salt).verifySignature v s <;> simp [hver]

/-- The token produced by `dumps` is the base64 payload segment, the
dot, and the base64 signature segment. -/
theorem dumps_eq (S : Serializer) (x : Value) (salt : Bytes) :
    S.dumps x salt = b64encode (S.codec.enc x) ++ 46 ::
      b64encode (keyedHash (deriveKey S.keyDerivation S.secretKey salt)
        (b64encode (S.codec.enc x))) := rfl

/-- The round-trip core: `loads` after `dumps` on the same serializer
and salt succeeds, for any codec that round-trips on the payload and
any key-derivation method. -/
theorem loads_dumps (S : Serializer) (x : Value) (salt : Bytes)
    (hc : ∀ b ∈ S.codec.enc x, b < 256)
    (hkey : ∀ b ∈ S.secretKey, b < 256)
    (hsalt : ∀ b ∈ salt, b < 256)
    (hrt : S.codec.dec (S.codec.enc x) = some x) :
    S.loads (S.dumps x salt) salt = .ok x := by
  have hder : ∀ b ∈ deriveKey S.keyDerivation S.secretKey salt, b < 256 :=
    mem_deriveKey_lt hkey hsalt
  have hv256 : ∀ b ∈ b64encode (S.codec.enc x), b < 256 := mem_b64encode_lt256 hc
  have hd256 : ∀ b ∈ keyedHash (deriveKey S.keyDerivation S.secretKey salt)
      (b64encode (S.codec.enc x)), b < 256 := mem_keyedHash_lt hder hv256
  have hsep : 46 ∉ b64encode (keyedHash (deriveKey S.keyDerivation S.secretKey salt)
      (b64encode (S.codec.enc x))) := sep_not_mem_b64encode hd256
  have hver : (S.makeSigner salt).verifySignature (b64encode (S.codec.enc x))
      (b64encode (keyedHash (deriveKey S.keyDerivation S.secretKey salt)
        (b64encode (S.codec.enc x)))) = true := by
    simp only [Serializer.makeSigner, Signer.verifySignature]
    rw [b64decode_b64encode hd256]
    simp
  rw [dumps_eq, loads_append _ _ _ _ hsep, if_pos hver]
  simp only [Serializer.loadPayload, b64decode_b64encode hc, hrt]

/-- Verification fails as soon as the decoded signature cannot equal
the keyed hash recomputed under the serializer's (single) secret
key. -/
theorem verifySignature_false (S : Serializer) (v s salt : Bytes)
    (h : ∀ u, b64decode s = some u →
      u ≠ keyedHash (deriveKey S.keyDerivation S.secretKey salt) v) :
    (S.makeSigner salt).verifySignature v s = false := by
  simp only [Serializer.makeSigner, Signer.verifySignature]
  cases hd : b64decode s with
  | none => rfl
  | some u =>
    simp only [List.any_cons, List.any_nil, Bool.or_false, List.headD]
    exact beq_eq_false_iff_ne.mpr (h u hd)

/-- A load failure keeps `loadsSafe` on the `false` branch. -/
theorem loadsSafe_fst_of_error (S : Serializer) (t salt : Bytes) (e : LoadError)
    (h : S.loads t salt = .error e) : (S.loadsSafe t salt).1 = false := by
  simp only [Serializer.loadsSafe, h]
  split
  · rfl
  · split
    · rfl
    · rfl

/-- A load success makes `loadsSafe` return the tagged payload. -/
theorem loadsSafe_of_ok (S : Serializer) (t salt : Bytes) (v : Value)
    (h : S.loads t salt = .ok v) : S.loadsSafe t salt = (true, some v) := by
  simp [Serializer.loadsSafe, h]

/-- `dumps` on the arbitrary-codec test serializer, written out. -/
theorem dumps_mkSerializer (c : Codec) (x : Value) (salt : Bytes) :
    (mkSerializer c).dumps x salt = b64encode (c.enc x) ++ 46 ::
      b64encode (keyedHash (deriveKey .djangoConcat secretKeyBytes salt)
        (b64encode (c.enc x))) := rfl

/-- `dumps` on the test serializer with an explicit derivation method,
written out. -/
theorem dumps_mkKD (c : Codec) (kd : KeyDerivation) (x : Value) (salt : Bytes) :
    (mkSerializerKD c kd).dumps x salt = b64encode (c.enc x) ++ 46 ::
      b64encode (keyedHash (deriveKey kd secretKeyBytes salt)
        (b64encode (c.enc x))) := rfl

/-! ### Claim theorems -/

/-- C1: for every supported payload shape and any configured codec
that round-trips on it (well-formed bytes), `loads (dumps x)` on the
same serializer, with the same secret key `"secret_key"` and the
default salt, returns `x`. -/
theorem c1_round_trip (c : Codec) (x : Value)
    (hc : ∀ b ∈ c.enc x, b < 256)
    (hrt : c.dec (c.enc x) = some x) :
    (mkSerializer c).loads ((mkSerializer c).dumps x saltDefault) saltDefault = .ok x :=
  loads_dumps (mkSerializer c) x saltDefault hc secretKeyBytes_lt (by decide) hrt

/-- C1 witness: the round trip evaluated on each tested payload shape
(null, boolean, text string, list, dict) under the JSON-style
codec. -/
theorem c1_round_trip_witness :
    ((∀ b ∈ jsonCodec.enc valueId42, b < 256) ∧
      jsonCodec.dec (jsonCodec.enc valueId42) = some valueId42 ∧
      jsonSerializer.loads (jsonSerializer.dumps valueId42 saltDefault) saltDefault =
        .ok valueId42) ∧
    jsonSerializer.loads (jsonSerializer.dumps .null saltDefault) saltDefault = .ok .null ∧
    jsonSerializer.loads (jsonSerializer.dumps (.bool true) saltDefault) saltDefault =
      .ok (.bool true) ∧
    jsonSerializer.loads (jsonSerializer.dumps (.str [115, 116, 114]) saltDefault) saltDefault =
      .ok (.str [115, 116, 114]) ∧
    jsonSerializer.loads
        (jsonSerializer.dumps (.list [.int 1, .int 2, .int 3]) saltDefault) saltDefault =
      .ok (.list [.int 1, .int 2, .int 3]) :=
  ⟨⟨by decide, rfl, c1_round_trip jsonCodec valueId42 (by decide) rfl⟩,
    c1_round_trip jsonCodec .null (by decide) rfl,
    c1_round_trip jsonCodec (.bool true) (by decide) rfl,
    c1_round_trip jsonCodec (.str [115, 116, 114]) (by decide) rfl,
    c1_round_trip jsonCodec (.list [.int 1, .int 2, .int 3]) (by decide) rfl⟩

/-- C6: signing under salt `a` and loading under a different salt `b`
fails with BadSignature, while loading under the same salt `a`
returns the payload. -/
theorem c6_salt_isolation (c : Codec) (x : Value) (a b : Bytes)
    (hab : a ≠ b)
    (ha : ∀ y ∈ a, y < 256)
    (hc : ∀ y ∈ c.enc x, y < 256)
    (hrt : c.dec (c.enc x) = some x) :
    resultIsBadSignature ((mkSerializer c).loads ((mkSerializer c).dumps x a) b) = true ∧
    (mkSerializer c).loads ((mkSerializer c).dumps x a) a = .ok x := by
  refine ⟨?_, loads_dumps (mkSerializer c) x a hc secretKeyBytes_lt ha hrt⟩
  have hderA : ∀ y ∈ deriveKey .djangoConcat secretKeyBytes a, y < 256 :=
    mem_deriveKey_lt secretKeyBytes_lt ha
  have hv256 : ∀ y ∈ b64encode (c.enc x), y < 256 := mem_b64encode_lt256 hc
  have hdA256 : ∀ y ∈ keyedHash (deriveKey .djangoConcat secretKeyBytes a)
      (b64encode (c.enc x)), y < 256 := mem_keyedHash_lt hderA hv256
  have hsep : 46 ∉ b64encode (keyedHash (deriveKey .djangoConcat secretKeyBytes a)
      (b64encode (c.enc x))) := sep_not_mem_b64encode hdA256
  have hver : ((mkSerializer c).makeSigner b).verifySignature (b64encode (c.enc x))
      (b64encode (keyedHash (deriveKey .djangoConcat secretKeyBytes a)
        (b64encode (c.enc x)))) = false := by
    apply verifySignature_false
    intro u hu
    rw [b64decode_b64encode hdA256] at hu
    cases hu
    exact keyedHash_ne_of_key_ne (deriveKey_django_inj_salt hab)
  rw [dumps_mkSerializer, loads_append _ _ _ _ hsep, if_neg (by simp [hver])]
  rfl

/-- C6 witness: the salt isolation evaluated at the test inputs
(salt `"other"` against the default salt, payload the test dict). -/
theorem c6_salt_isolation_witness :
    saltOther ≠ saltDefault ∧
    resultIsBadSignature
        (jsonSerializer.loads (jsonSerializer.dumps valueId42 saltOther) saltDefault) = true ∧
    jsonSerializer.loads (jsonSerializer.dumps valueId42 saltOther) saltOther =
      .ok valueId42 := by
  refine ⟨by decide, ?_, ?_⟩
  · exact (c6_salt_isolation jsonCodec valueId42 saltOther saltDefault (by decide) (by decide)
      (by decide) rfl).1
  · exact (c6_salt_isolation jsonCodec valueId42 saltOther saltDefault (by decide) (by decide)
      (by decide) rfl).2

/-- C9: a serializer configured with the `hmac` key-derivation method
round-trips, and its token for a payload differs from the token of
the identically-keyed serializer using the default (django-concat)
derivation. -/
theorem c9_key_derivation (c : Codec) (x : Value)
    (hc : ∀ b ∈ c.enc x, b < 256)
    (hrt : c.dec (c.enc x) = some x) :
    (mkSerializerKD c .hmacKD).loads ((mkSerializerKD c .hmacKD).dumps x saltDefault)
        saltDefault = .ok x ∧
    (mkSerializerKD c .hmacKD).dumps x saltDefault ≠ (mkSerializer c).dumps x saltDefault := by
  refine ⟨loads_dumps (mkSerializerKD c .hmacKD) x saltDefault hc secretKeyBytes_lt (by decide) hrt, ?_⟩
  intro he
  rw [dumps_mkKD, dumps_mkSerializer] at he
  have hs12 := List.append_cancel_left he
  simp only [List.cons.injEq, true_and] at hs12
  have hv256 : ∀ y ∈ b64encode (c.enc x), y < 256 := mem_b64encode_lt256 hc
  have hd1 : b64decode (b64encode (keyedHash (deriveKey .hmacKD secretKeyBytes saltDefault)
      (b64encode (c.enc x)))) = some (keyedHash (deriveKey .hmacKD secretKeyBytes saltDefault)
      (b64encode (c.enc x))) :=
    b64decode_b64encode (mem_keyedHash_lt (mem_deriveKey_lt secretKeyBytes_lt (by decide)) hv256)
  have hd2 : b64decode (b64encode (keyedHash (deriveKey .djangoConcat secretKeyBytes saltDefault)
      (b64encode (c.enc x)))) = some (keyedHash (deriveKey .djangoConcat secretKeyBytes
      saltDefault) (b64encode (c.enc x))) :=
    b64decode_b64encode (mem_keyedHash_lt (mem_deriveKey_lt secretKeyBytes_lt (by decide)) hv256)
  rw [hs12, hd2] at hd1
  have hdd := Option.some.inj hd1
  have hlen := congrArg List.length hdd
  rw [keyedHash_length, keyedHash_length] at hlen
  have e1 : (deriveKey .hmacKD secretKeyBytes saltDefault).length = 24 := by decide
  have e2 : (deriveKey .djangoConcat secretKeyBytes saltDefault).length = 29 := by decide
  rw [e1, e2] at hlen
  omega

/-- C9 witness: the hmac-derivation round trip and token difference
evaluated at the test payload under the JSON-style codec. -/
theorem c9_key_derivation_witness :
    (∀ b ∈ jsonCodec.enc valueId42, b < 256) ∧
    ((mkSerializerKD jsonCodec .hmacKD).loads
        ((mkSerializerKD jsonCodec .hmacKD).dumps valueId42 saltDefault) saltDefault =
      .ok valueId42 ∧
    (mkSerializerKD jsonCodec .hmacKD).dumps valueId42 saltDefault ≠
      (mkSerializer jsonCodec).dumps valueId42 saltDefault) :=
  ⟨by decide, c9_key_derivation jsonCodec valueId42 (by decide) rfl⟩

/-- C10: the stream variants: dumping a payload to an empty stream
and loading the stream back returns the payload, in both the raising
and the safe variant. -/
theorem c10_stream_variants (c : Codec) (x : Value)
    (hc : ∀ b ∈ c.enc x, b < 256)
    (hrt : c.dec (c.enc x) = some x) :
    (mkSerializer c).load ((mkSerializer c).dump x saltDefault []) saltDefault = .ok x ∧
    (mkSerializer c).loadSafe ((mkSerializer c).dump x saltDefault []) saltDefault =
      (true, some x) := by
  have hload : (mkSerializer c).loads ((mkSerializer c).dumps x saltDefault) saltDefault =
      .ok x := loads_dumps (mkSerializer c) x saltDefault hc secretKeyBytes_lt (by decide) hrt
  have hbuf : (mkSerializer c).dump x saltDefault [] = (mkSerializer c).dumps x saltDefault := by
    simp [Serializer.dump]
  constructor
  · rw [Serializer.load, hbuf]
    exact hload
  · rw [Serializer.loadSafe, hbuf]
    exact loadsSafe_of_ok _ _ _ _ hload

/-- C10 witness: the stream round trip evaluated at the test payload
under the JSON-style codec. -/
theorem c10_stream_variants_witness :
    (jsonCodec.dec (jsonCodec.enc valueId42) = some valueId42) ∧
    (jsonSerializer.load (jsonSerializer.dump valueId42 saltDefault []) saltDefault =
        .ok valueId42 ∧
      jsonSerializer.loadSafe (jsonSerializer.dump valueId42 saltDefault []) saltDefault =
        (true, some valueId42)) :=
  ⟨rfl, c10_stream_variants jsonCodec valueId42 (by decide) rfl⟩

/-- Base64 of a nonempty byte string is nonempty. -/
theorem b64encode_cons_ne_nil (a : Nat) (r : Bytes) : b64encode (a :: r) ≠ [] := by
  cases r with
  | nil => simp [b64encode]
  | cons b r2 =>
    cases r2 with
    | nil => simp [b64encode]
    | cons c r3 => simp [b64encode]

/-- A successful base64 decode of a string one character shorter or
longer than the canonical encoding of `m` never yields `m`: the
decoded lengths cannot agree. -/
theorem b64decode_length_ne {m t : Bytes} (hm : m ≠ [])
    (ht : t.length + 1 = (b64encode m).length ∨ t.length = (b64encode m).length + 1) :
    ∀ u, b64decode t = some u → u ≠ m := by
  intro u hu he
  subst he
  have h1 := b64decode_some_length hu
  have h2 := b64encode_length u
  have h3 : 1 ≤ u.length := List.length_pos.mpr hm
  omega

/-- A validly signed payload segment loads to whatever the payload
decoder makes of it. -/
theorem loads_sign (S : Serializer) (p salt : Bytes)
    (hp : ∀ b ∈ p, b < 256)
    (hkey : ∀ b ∈ S.secretKey, b < 256)
    (hsalt : ∀ b ∈ salt, b < 256) :
    S.loads ((S.makeSigner salt).sign p) salt = S.loadPayload p := by
  have hder : ∀ b ∈ deriveKey S.keyDerivation S.secretKey salt, b < 256 :=
    mem_deriveKey_lt hkey hsalt
  have hd256 : ∀ b ∈ keyedHash (deriveKey S.keyDerivation S.secretKey salt) p, b < 256 :=
    mem_keyedHash_lt hder hp
  have hsep : 46 ∉ b64encode (keyedHash (deriveKey S.keyDerivation S.secretKey salt) p) :=
    sep_not_mem_b64encode hd256
  have hsign : (S.makeSigner salt).sign p = p ++ 46 ::
      b64encode (keyedHash (deriveKey S.keyDerivation S.secretKey salt) p) := rfl
  have hver : (S.makeSigner salt).verifySignature p
      (b64encode (keyedHash (deriveKey S.keyDerivation S.secretKey salt) p)) = true := by
    simp only [Serializer.makeSigner, Signer.verifySignature]
    rw [b64decode_b64encode hd256]
    simp
  rw [hsign, loads_append _ _ _ _ hsep, if_pos hver]

/-- A payload-decode failure is always BadPayload carrying the raw
payload and a non-null cause. -/
theorem loadPayload_error_shape (S : Serializer) (p : Bytes) (e : LoadError)
    (h : S.loadPayload p = .error e) : ∃ cause, e = .badPayload (some p) (some cause) := by
  simp only [Serializer.loadPayload] at h
  cases hd : b64decode p with
  | none =>
    simp only [hd] at h
    exact ⟨.base64Error, (Except.error.inj h).symm⟩
  | some bytes =>
    simp only [hd] at h
    cases hc2 : S.codec.dec bytes with
    | none =>
      simp only [hc2] at h
      exact ⟨.codecError, (Except.error.inj h).symm⟩
    | some v =>
      simp only [hc2] at h
      exact Except.noConfusion h

/-- Truncating the last character of a token makes `loads` fail with
BadSignature carrying the intact unsigned payload segment. -/
theorem loads_dropLast_badSignature (c : Codec) (x : Value) (salt : Bytes)
    (hc : ∀ b ∈ c.enc x, b < 256)
    (hsalt : ∀ b ∈ salt, b < 256) :
    (mkSerializer c).loads (((mkSerializer c).dumps x salt).dropLast) salt =
      .error (.badSignature (some (b64encode (c.enc x)))) := by
  have hder : ∀ y ∈ deriveKey .djangoConcat secretKeyBytes salt, y < 256 :=
    mem_deriveKey_lt secretKeyBytes_lt hsalt
  have hv256 : ∀ y ∈ b64encode (c.enc x), y < 256 := mem_b64encode_lt256 hc
  have hd256 : ∀ y ∈ keyedHash (deriveKey .djangoConcat secretKeyBytes salt)
      (b64encode (c.enc x)), y < 256 := mem_keyedHash_lt hder hv256
  have hsep : 46 ∉ b64encode (keyedHash (deriveKey .djangoConcat secretKeyBytes salt)
      (b64encode (c.enc x))) := sep_not_mem_b64encode hd256
  have hsne : b64encode (keyedHash (deriveKey .djangoConcat secretKeyBytes salt)
      (b64encode (c.enc x))) ≠ [] := b64encode_cons_ne_nil _ _
  have hdrop : (((mkSerializer c).dumps x salt).dropLast) = b64encode (c.enc x) ++ 46 ::
      (b64encode (keyedHash (deriveKey .djangoConcat secretKeyBytes salt)
        (b64encode (c.enc x)))).dropLast := by
    rw [dumps_mkSerializer, List.dropLast_append_of_ne_nil _ (by simp),
      List.dropLast_cons_of_ne_nil hsne]
  have hsep2 : 46 ∉ (b64encode (keyedHash (deriveKey .djangoConcat secretKeyBytes salt)
      (b64encode (c.enc x)))).dropLast :=
    fun h => hsep ((List.dropLast_sublist _).subset h)
  have hElen : 1 ≤ (b64encode (keyedHash (deriveKey .djangoConcat secretKeyBytes salt)
      (b64encode (c.enc x)))).length := by
    cases hh : b64encode (keyedHash (deriveKey .djangoConcat secretKeyBytes salt)
        (b64encode (c.enc x))) with
    | nil => exact absurd hh hsne
    | cons y ys => simp
  have hver : ((mkSerializer c).makeSigner salt).verifySignature (b64encode (c.enc x))
      ((b64encode (keyedHash (deriveKey .djangoConcat secretKeyBytes salt)
        (b64encode (c.enc x)))).dropLast) = false := by
    apply verifySignature_false
    simp only [mkSerializer]
    intro u hu
    exact b64decode_length_ne (by simp [keyedHash])
      (Or.inl (by rw [List.length_dropLast]; omega)) u hu
  rw [hdrop, loads_append _ _ _ _ hsep2, if_neg (by simp [hver])]

/-- C3: truncating the last character of a token makes `loads` fail
with BadSignature carrying the intact unsigned payload segment, and
`load_payload` on that carried segment recovers the dumped value. -/
theorem c3_badsignature_carries_payload (c : Codec) (x : Value)
    (hc : ∀ b ∈ c.enc x, b < 256)
    (hrt : c.dec (c.enc x) = some x) :
    (mkSerializer c).loads (((mkSerializer c).dumps x saltDefault).dropLast) saltDefault =
      .error (.badSignature (some (b64encode (c.enc x)))) ∧
    (mkSerializer c).loadPayload (b64encode (c.enc x)) = .ok x := by
  refine ⟨loads_dropLast_badSignature c x saltDefault hc (by decide), ?_⟩
  simp only [Serializer.loadPayload, mkSerializer, b64decode_b64encode hc, hrt]

/-- C3 witness: the truncated-token diagnostics evaluated at the test
payload under the JSON-style codec. -/
theorem c3_badsignature_carries_payload_witness :
    (∀ b ∈ jsonCodec.enc valueId42, b < 256) ∧
    (jsonSerializer.loads ((jsonSerializer.dumps valueId42 saltDefault).dropLast) saltDefault =
        .error (.badSignature (some (b64encode (jsonCodec.enc valueId42)))) ∧
      jsonSerializer.loadPayload (b64encode (jsonCodec.enc valueId42)) = .ok valueId42) :=
  ⟨by decide, c3_badsignature_carries_payload jsonCodec valueId42 (by decide) rfl⟩

/-- C4: a token whose signature is valid (produced by the
serializer's own signer over the current key and salt) but whose
payload segment does not decode fails with BadPayload, not
BadSignature, and the failure carries a non-null original decode
error. -/
theorem c4_bad_payload (c : Codec) (p : Bytes) (e : LoadError)
    (hp : ∀ b ∈ p, b < 256)
    (hfail : (mkSerializer c).loadPayload p = .error e) :
    (mkSerializer c).loads (((mkSerializer c).makeSigner saltDefault).sign p) saltDefault =
      .error e ∧
    ∃ cause, e = .badPayload (some p) (some cause) := by
  refine ⟨?_, loadPayload_error_shape _ _ _ hfail⟩
  rw [loads_sign (mkSerializer c) p saltDefault hp secretKeyBytes_lt (by decide)]
  exact hfail

/-- C4 witness: evaluated on a validly signed payload segment whose
base64 layer decodes but whose bytes the JSON-style codec rejects. -/
theorem c4_bad_payload_witness :
    (∀ b ∈ [101, 65], b < 256) ∧
    jsonSerializer.loadPayload [101, 65] =
      .error (.badPayload (some [101, 65]) (some .codecError)) ∧
    (jsonSerializer.loads ((jsonSerializer.makeSigner saltDefault).sign [101, 65]) saltDefault =
        .error (.badPayload (some [101, 65]) (some .codecError)) ∧
      ∃ cause, LoadError.badPayload (some [101, 65]) (some .codecError) =
        .badPayload (some [101, 65]) (some cause)) :=
  ⟨by decide, rfl,
    c4_bad_payload jsonCodec [101, 65] (.badPayload (some [101, 65]) (some .codecError))
      (by decide) rfl⟩

/-- C5: `loads_unsafe` is total and relates to `loads` exactly as the
spec states: success tags the payload with `true`; a failure whose
error carries no recoverable payload, or one the payload decoder
rejects, gives `(false, none)`; a failure whose carried payload still
decodes gives `(false, that payload)`. -/
theorem c5_loads_safe_spec (S : Serializer) (t salt : Bytes) :
    (∀ v, S.loads t salt = .ok v → S.loadsSafe t salt = (true, some v)) ∧
    (∀ e, S.loads t salt = .error e →
      (e.payload = none → S.loadsSafe t salt = (false, none)) ∧
      (∀ p, e.payload = some p →
        (∀ v, S.loadPayload p = .ok v → S.loadsSafe t salt = (false, some v)) ∧
        (∀ e2, S.loadPayload p = .error e2 → S.loadsSafe t salt = (false, none)))) := by
  refine ⟨fun v hv => loadsSafe_of_ok S t salt v hv, fun e he => ⟨?_, fun p hp => ⟨?_, ?_⟩⟩⟩
  · intro hp
    simp [Serializer.loadsSafe, he, hp]
  · intro v hv
    simp [Serializer.loadsSafe, he, hp, hv]
  · intro e2 he2
    simp [Serializer.loadsSafe, he, hp, he2]

/-- C5 witness: the three safe-mode regimes evaluated concretely: a
good token, a truncated token whose carried payload still decodes,
and a no-separator token with nothing to recover. -/
theorem c5_loads_safe_spec_witness :
    (jsonSerializer.loads (jsonSerializer.dumps valueId42 saltDefault) saltDefault =
        .ok valueId42 ∧
      jsonSerializer.loadsSafe (jsonSerializer.dumps valueId42 saltDefault) saltDefault =
        (true, some valueId42)) ∧
    (jsonSerializer.loadsSafe ((jsonSerializer.dumps valueId42 saltDefault).dropLast)
        saltDefault = (false, some valueId42)) ∧
    (jsonSerializer.loadsSafe [97, 98, 99] saltDefault = (false, none)) := by
  have h1 := c5_loads_safe_spec jsonSerializer (jsonSerializer.dumps valueId42 saltDefault)
    saltDefault
  have h2 := c5_loads_safe_spec jsonSerializer
    ((jsonSerializer.dumps valueId42 saltDefault).dropLast) saltDefault
  have h3 := c5_loads_safe_spec jsonSerializer [97, 98, 99] saltDefault
  refine ⟨⟨rfl, h1.1 valueId42 rfl⟩, ?_, ?_⟩
  · exact ((h2.2 _ rfl).2 _ rfl).1 valueId42 rfl
  · exact (h3.2 _ rfl).1 rfl

/-- The byte string of a token reinterpreted as text, modelling the
coercion of `dumps` output to a string. -/
def bytesToText (bs : Bytes) : String := String.mk (bs.map Char.ofNat)

/-- Modelled from the spec (4.4 `dumps`): the token coerced to a text
string. -/
def Serializer.dumpsText (S : Serializer) (x : Value) (salt : Bytes) : String :=
  bytesToText (S.dumps x salt)

theorem charOfNat_toNat : ∀ b, b < 128 → (Char.ofNat b).toNat = b := by decide

theorem map_toNat_ofNat {l : Bytes} (h : ∀ b ∈ l, b < 128) :
    (l.map Char.ofNat).map Char.toNat = l := by
  induction l with
  | nil => rfl
  | cons b r ih =>
    simp only [List.map_cons, List.cons.injEq]
    exact ⟨charOfNat_toNat b (h b (by simp)),
      ih fun y hy => h y (List.mem_cons_of_mem _ hy)⟩

/-- C8: every byte of a token is ASCII (below 128), so the coercion of
the `dumps` result to a text string is well-defined and lossless. -/
theorem c8_dumps_text (c : Codec) (x : Value) (salt : Bytes)
    (hc : ∀ b ∈ c.enc x, b < 256)
    (hsalt : ∀ b ∈ salt, b < 256) :
    (∀ b ∈ (mkSerializer c).dumps x salt, b < 128) ∧
    ((mkSerializer c).dumpsText x salt).data.map Char.toNat = (mkSerializer c).dumps x salt := by
  have hder : ∀ y ∈ deriveKey .djangoConcat secretKeyBytes salt, y < 256 :=
    mem_deriveKey_lt secretKeyBytes_lt hsalt
  have hv256 : ∀ y ∈ b64encode (c.enc x), y < 256 := mem_b64encode_lt256 hc
  have hd256 : ∀ y ∈ keyedHash (deriveKey .djangoConcat secretKeyBytes salt)
      (b64encode (c.enc x)), y < 256 := mem_keyedHash_lt hder hv256
  have hmem : ∀ b ∈ (mkSerializer c).dumps x salt, b < 128 := by
    intro b hb
    rw [dumps_mkSerializer] at hb
    rcases List.mem_append.mp hb with h1 | h2
    · exact mem_b64encode_lt128 hc b h1
    rcases List.mem_cons.mp h2 with rfl | h3
    · omega
    · exact mem_b64encode_lt128 hd256 b h3
  exact ⟨hmem, map_toNat_ofNat hmem⟩

/-- C8 witness: ASCII bounds and lossless text coercion evaluated at
the test payload under the JSON-style codec. -/
theorem c8_dumps_text_witness :
    (∀ b ∈ jsonCodec.enc valueId42, b < 256) ∧
    ((∀ b ∈ jsonSerializer.dumps valueId42 saltDefault, b < 128) ∧
      (jsonSerializer.dumpsText valueId42 saltDefault).data.map Char.toNat =
        jsonSerializer.dumps valueId42 saltDefault) :=
  ⟨by decide, c8_dumps_text jsonCodec valueId42 saltDefault (by decide) (by decide)⟩

/-- C7: the concrete scenario: with secret key `"secret_key"`, the
default salt and payload `{"id": 42}`, the token is exactly two
dot-separated segments of base64-alphabet characters (payload then
signature); `loads` recovers the payload; truncating the last
character makes `loads` fail with BadSignature. -/
theorem c7_concrete_scenario :
    (∃ p s, jsonSerializer.dumps valueId42 saltDefault = p ++ 46 :: s ∧
      46 ∉ p ∧ 46 ∉ s ∧ p ≠ [] ∧ s ≠ [] ∧
      (∀ b ∈ p, (b64Index b).isSome = true) ∧ (∀ b ∈ s, (b64Index b).isSome = true)) ∧
    jsonSerializer.loads (jsonSerializer.dumps valueId42 saltDefault) saltDefault =
      .ok valueId42 ∧
    resultIsBadSignature (jsonSerializer.loads
      ((jsonSerializer.dumps valueId42 saltDefault).dropLast) saltDefault) = true := by
  refine ⟨⟨b64encode (jsonCodec.enc valueId42),
    b64encode (keyedHash (deriveKey .djangoConcat secretKeyBytes saltDefault)
      (b64encode (jsonCodec.enc valueId42))),
    rfl, by decide, by decide, by decide, by decide, by decide, by decide⟩, rfl, rfl⟩

/-! ### Tampering transformations (C2) -/

/-- Uppercasing of an ASCII byte, modelling the `upper()` transform
applied to a token. -/
def upperByte (b : Nat) : Nat := if 97 ≤ b ∧ b ≤ 122 then b - 32 else b

/-- Tamper: flip the case of every byte (uppercase the token). -/
def tamperUpper (t : Bytes) : Bytes := t.map upperByte

/-- Tamper: append the byte `a`. -/
def tamperAppend (t : Bytes) : Bytes := t ++ [97]

/-- Tamper: replace the leading byte by `a`. -/
def tamperReplaceHead (t : Bytes) : Bytes := 97 :: t.tail

/-- Tamper: remove every separator (dot) byte. -/
def tamperStripSeps (t : Bytes) : Bytes := t.filter fun b => b != 46

/-- Tamper: truncate the last byte. -/
def tamperTruncate (t : Bytes) : Bytes := t.dropLast

/-- A token is rejected when `loads` fails with BadSignature and the
safe-mode load reports failure. -/
def rejected (S : Serializer) (t salt : Bytes) : Prop :=
  resultIsBadSignature (S.loads t salt) = true ∧ (S.loadsSafe t salt).1 = false

/-! ### Lemmas for the tamper cases -/

theorem rejected_of_badSignature (S : Serializer) (t salt : Bytes) (p : Option Bytes)
    (h : S.loads t salt = .error (.badSignature p)) : rejected S t salt :=
  ⟨by rw [h]; rfl, loadsSafe_fst_of_error S t salt _ h⟩

theorem upperByte_eq_sep {y : Nat} (h : upperByte y = 46) : y = 46 := by
  unfold upperByte at h
  split at h <;> omega

theorem not_mem_map_upperByte {s : Bytes} (h : 46 ∉ s) : 46 ∉ s.map upperByte := by
  intro hm
  obtain ⟨y, hy, he⟩ := List.mem_map.mp hm
  exact h (upperByte_eq_sep he ▸ hy)

theorem b64Index_lt {c i : Nat} (h : b64Index c = some i) : i < 64 := by
  simp only [b64Index] at h
  split_ifs at h <;> simp_all <;> omega

theorem b64decode_cons_head {w : Nat} {rest u : Bytes} (h : b64decode (w :: rest) = some u) :
    ∃ a hd tl, b64Index w = some a ∧ u = hd :: tl ∧ hd / 4 = a := by
  cases rest with
  | nil => simp [b64decode] at h
  | cons x r2 =>
    cases r2 with
    | nil =>
      rcases hw : b64Index w with _ | a
      · simp [b64decode, hw] at h
      rcases hx : b64Index x with _ | b
      · simp [b64decode, hw, hx] at h
      have hb := b64Index_lt hx
      simp only [b64decode, hw, hx, Option.some_bind, Option.some.injEq] at h
      exact ⟨a, a * 4 + b / 16, [], rfl, h.symm, by omega⟩
    | cons y r3 =>
      cases r3 with
      | nil =>
        rcases hw : b64Index w with _ | a
        · simp [b64decode, hw] at h
        rcases hx : b64Index x with _ | b
        · simp [b64decode, hw, hx] at h
        rcases hy : b64Index y with _ | cc
        · simp [b64decode, hw, hx, hy] at h
        have hb := b64Index_lt hx
        simp only [b64decode, hw, hx, hy, Option.some_bind, Option.some.injEq] at h
        exact ⟨a, a * 4 + b / 16, _, rfl, h.symm, by omega⟩
      | cons z r4 =>
        rcases hw : b64Index w with _ | a
        · simp [b64decode, hw] at h
        rcases hx : b64Index x with _ | b
        · simp [b64decode, hw, hx] at h
        rcases hy : b64Index y with _ | cc
        · simp [b64decode, hw, hx, hy] at h
        rcases hz : b64Index z with _ | d
        · simp [b64decode, hw, hx, hy, hz] at h
        rcases hr : b64decode r4 with _ | r
        · simp [b64decode, hw, hx, hy, hz, hr] at h
        have hb := b64Index_lt hx
        simp only [b64decode, hw, hx, hy, hz, hr, Option.some_bind, Option.some.injEq] at h
        exact ⟨a, a * 4 + b / 16, _, rfl, h.symm, by omega⟩

theorem b64encode_tag97 (tl : Bytes) : ∃ r, b64encode (104 :: tl) = 97 :: r := by
  cases tl with
  | nil => exact ⟨_, rfl⟩
  | cons b r2 =>
    cases r2 with
    | nil => exact ⟨_, rfl⟩
    | cons c r3 => exact ⟨_, rfl⟩

theorem b64encode_head_char (b0 : Nat) (r0 : Bytes) :
    ∃ vr, b64encode (b0 :: r0) = b64Char (b0 / 4) :: vr := by
  cases r0 with
  | nil => exact ⟨_, rfl⟩
  | cons b r2 =>
    cases r2 with
    | nil => exact ⟨_, rfl⟩
    | cons c r3 => exact ⟨_, rfl⟩

theorem b64Char_eq97 : ∀ i, i < 64 → b64Char i = 97 → i = 26 := by decide

theorem natDigitsAux_head : ∀ fuel n, n < fuel →
    ∃ b r, natDigitsAux fuel n = b :: r ∧ 48 ≤ b ∧ b ≤ 57 := by
  intro fuel
  induction fuel with
  | zero => intro n h; omega
  | succ f ih =>
    intro n h
    by_cases h10 : n < 10
    · exact ⟨48 + n, [], by simp [natDigitsAux, h10], by omega, by omega⟩
    · obtain ⟨b, r, he, h1, h2⟩ := ih (n / 10) (by omega)
      refine ⟨b, r ++ [48 + n % 10], ?_, h1, h2⟩
      simp [natDigitsAux, h10, he]

/-- The first byte of a JSON-encoded value is never one whose base64
character is a lowercase `a` (6-bit index 26). -/
theorem jsonEncode_head (x : Value) : ∃ b r, jsonEncode x = b :: r ∧ b / 4 ≠ 26 := by
  cases x with
  | null => exact ⟨110, _, rfl, by omega⟩
  | bool b =>
    cases b with
    | true => exact ⟨116, _, rfl, by omega⟩
    | false => exact ⟨102, _, rfl, by omega⟩
  | int n =>
    cases n with
    | ofNat m =>
      obtain ⟨b, r, he, h1, h2⟩ := natDigitsAux_head (m + 1) m (by omega)
      exact ⟨b, r, by simp [jsonEncode, intBytes, natDigits, he], by omega⟩
    | negSucc m => exact ⟨45, _, rfl, by omega⟩
  | str s => exact ⟨34, _, rfl, by omega⟩
  | list xs => exact ⟨91, _, rfl, by omega⟩
  | dict es => exact ⟨123, _, rfl, by omega⟩

theorem filter_ne46_eq_self {l : Bytes} (h : 46 ∉ l) : (l.filter fun b => b != 46) = l :=
  List.filter_eq_self.mpr fun a ha => bne_iff_ne.mpr fun he => h (he ▸ ha)

/-- A token without any separator byte fails with BadSignature and no
recovered payload. -/
theorem loads_no_sep (S : Serializer) (t salt : Bytes) (h : 46 ∉ t) :
    S.loads t salt = .error (.badSignature none) := by
  have hr : rsplitLast (S.makeSigner salt).sep t = none := rsplitLast_of_not_mem h
  simp only [Serializer.loads, Signer.unsign, hr]

/-- C2: every tested modification of a valid token: uppercasing,
appending a byte, replacing the leading byte, removing all separator
bytes, truncating the last byte, makes `loads` fail with BadSignature
and the safe-mode load report failure. -/
theorem c2_tamper_detection (x : Value) (h256 : ∀ b ∈ jsonEncode x, b < 256) :
    rejected jsonSerializer (tamperUpper (jsonSerializer.dumps x saltDefault)) saltDefault ∧
    rejected jsonSerializer (tamperAppend (jsonSerializer.dumps x saltDefault)) saltDefault ∧
    rejected jsonSerializer (tamperReplaceHead (jsonSerializer.dumps x saltDefault)) saltDefault ∧
    rejected jsonSerializer (tamperStripSeps (jsonSerializer.dumps x saltDefault)) saltDefault ∧
    rejected jsonSerializer (tamperTruncate (jsonSerializer.dumps x saltDefault)) saltDefault := by
  have hc : ∀ b ∈ jsonCodec.enc x, b < 256 := h256
  have hK : ∀ b ∈ deriveKey .djangoConcat secretKeyBytes saltDefault, b < 256 := by decide
  have hv256 : ∀ b ∈ b64encode (jsonCodec.enc x), b < 256 := mem_b64encode_lt256 hc
  have hd256 : ∀ b ∈ keyedHash (deriveKey .djangoConcat secretKeyBytes saltDefault)
      (b64encode (jsonCodec.enc x)), b < 256 := mem_keyedHash_lt hK hv256
  have hsepv : 46 ∉ b64encode (jsonCodec.enc x) := sep_not_mem_b64encode hc
  have hseps : 46 ∉ b64encode (keyedHash (deriveKey .djangoConcat secretKeyBytes saltDefault)
      (b64encode (jsonCodec.enc x))) := sep_not_mem_b64encode hd256
  have htok : jsonSerializer.dumps x saltDefault = b64encode (jsonCodec.enc x) ++ 46 ::
      b64encode (keyedHash (deriveKey .djangoConcat secretKeyBytes saltDefault)
        (b64encode (jsonCodec.enc x))) := rfl
  obtain ⟨sr, hs97⟩ := b64encode_tag97
    (lenCode (deriveKey .djangoConcat secretKeyBytes saltDefault).length ++
      deriveKey .djangoConcat secretKeyBytes saltDefault ++ b64encode (jsonCodec.enc x))
  have hs97b : b64encode (keyedHash (deriveKey .djangoConcat secretKeyBytes saltDefault)
      (b64encode (jsonCodec.enc x))) = 97 :: sr := hs97
  have hsr : 46 ∉ sr := fun h => hseps (by rw [hs97b]; exact List.mem_cons_of_mem _ h)
  -- upper
  have hmapU : tamperUpper (jsonSerializer.dumps x saltDefault) =
      (b64encode (jsonCodec.enc x)).map upperByte ++ 46 :: (65 :: sr.map upperByte) := by
    rw [htok, hs97b]
    simp only [tamperUpper, List.map_append, List.map_cons]
    rfl
  have hsepU : 46 ∉ (65 :: sr.map upperByte) := by
    intro h
    rcases List.mem_cons.mp h with he | hm
    · omega
    · exact not_mem_map_upperByte hsr hm
  have hverU : (jsonSerializer.makeSigner saltDefault).verifySignature
      ((b64encode (jsonCodec.enc x)).map upperByte) (65 :: sr.map upperByte) = false := by
    apply verifySignature_false
    simp only [jsonSerializer, mkSerializer]
    intro u hu
    obtain ⟨a, hd, tl, hwi, hue, hquot⟩ := b64decode_cons_head hu
    have ha : a = 0 := by
      have h65 : b64Index 65 = some 0 := rfl
      rw [h65] at hwi
      exact (Option.some.inj hwi).symm
    subst hue
    intro he
    simp only [keyedHash, List.cons.injEq] at he
    obtain ⟨he1, _⟩ := he
    omega
  have hloadU : jsonSerializer.loads (tamperUpper (jsonSerializer.dumps x saltDefault))
      saltDefault = .error (.badSignature
        (some ((b64encode (jsonCodec.enc x)).map upperByte))) := by
    rw [hmapU, loads_append _ _ _ _ hsepU, if_neg (by simp [hverU])]
  -- append
  have htokA : tamperAppend (jsonSerializer.dumps x saltDefault) =
      b64encode (jsonCodec.enc x) ++ 46 ::
        (b64encode (keyedHash (deriveKey .djangoConcat secretKeyBytes saltDefault)
          (b64encode (jsonCodec.enc x))) ++ [97]) := by
    rw [htok]
    simp [tamperAppend]
  have hsepA : 46 ∉ (b64encode (keyedHash (deriveKey .djangoConcat secretKeyBytes saltDefault)
      (b64encode (jsonCodec.enc x))) ++ [97]) := by
    intro h
    rcases List.mem_append.mp h with h1 | h2
    · exact hseps h1
    · simp at h2
  have hverA : (jsonSerializer.makeSigner saltDefault).verifySignature
      (b64encode (jsonCodec.enc x))
      (b64encode (keyedHash (deriveKey .djangoConcat secretKeyBytes saltDefault)
        (b64encode (jsonCodec.enc x))) ++ [97]) = false := by
    apply verifySignature_false
    simp only [jsonSerializer, mkSerializer]
    intro u hu
    exact b64decode_length_ne (by simp [keyedHash]) (Or.inr (by simp)) u hu
  have hloadA : jsonSerializer.loads (tamperAppend (jsonSerializer.dumps x saltDefault))
      saltDefault = .error (.badSignature (some (b64encode (jsonCodec.enc x)))) := by
    rw [htokA, loads_append _ _ _ _ hsepA, if_neg (by simp [hverA])]
  -- replace leading byte
  obtain ⟨b0, r0, hjx, hb0q⟩ := jsonEncode_head x
  have hb0 : b0 < 256 := h256 b0 (by rw [hjx]; exact List.mem_cons_self _ _)
  obtain ⟨vr, hvr⟩ := b64encode_head_char b0 r0
  have hv_eq : b64encode (jsonCodec.enc x) = b64Char (b0 / 4) :: vr := by
    rw [show jsonCodec.enc x = jsonEncode x from rfl, hjx, hvr]
  have htokR : tamperReplaceHead (jsonSerializer.dumps x saltDefault) = (97 :: vr) ++ 46 ::
      b64encode (keyedHash (deriveKey .djangoConcat secretKeyBytes saltDefault)
        (b64encode (jsonCodec.enc x))) := by
    rw [htok, hv_eq]
    simp [tamperReplaceHead]
  have hverR : (jsonSerializer.makeSigner saltDefault).verifySignature (97 :: vr)
      (b64encode (keyedHash (deriveKey .djangoConcat secretKeyBytes saltDefault)
        (b64encode (jsonCodec.enc x)))) = false := by
    apply verifySignature_false
    simp only [jsonSerializer, mkSerializer]
    intro u hu
    rw [b64decode_b64encode hd256] at hu
    obtain rfl := Option.some.inj hu
    intro he
    have hv2 := keyedHash_inj_msg he
    rw [hv_eq] at hv2
    have h97 : b64Char (b0 / 4) = 97 := (List.cons.injEq _ _ _ _ ▸ hv2).1
    exact hb0q (b64Char_eq97 _ (by omega) h97)
  have hloadR : jsonSerializer.loads (tamperReplaceHead (jsonSerializer.dumps x saltDefault))
      saltDefault = .error (.badSignature (some (97 :: vr))) := by
    rw [htokR, loads_append _ _ _ _ hseps, if_neg (by simp [hverR])]
  -- strip separators
  have htokS : tamperStripSeps (jsonSerializer.dumps x saltDefault) =
      b64encode (jsonCodec.enc x) ++
        b64encode (keyedHash (deriveKey .djangoConcat secretKeyBytes saltDefault)
          (b64encode (jsonCodec.enc x))) := by
    rw [htok]
    simp only [tamperStripSeps, List.filter_append, List.filter_cons, bne_self_eq_false,
      Bool.false_eq_true, if_false]
    rw [filter_ne46_eq_self hsepv, filter_ne46_eq_self hseps]
  have hloadS : jsonSerializer.loads (tamperStripSeps (jsonSerializer.dumps x saltDefault))
      saltDefault = .error (.badSignature none) := by
    rw [htokS]
    apply loads_no_sep
    intro h
    rcases List.mem_append.mp h with h1 | h2
    · exact hsepv h1
    · exact hseps h2
  -- truncate
  have hloadT : jsonSerializer.loads (tamperTruncate (jsonSerializer.dumps x saltDefault))
      saltDefault = .error (.badSignature (some (b64encode (jsonCodec.enc x)))) :=
    loads_dropLast_badSignature jsonCodec x saltDefault hc (by decide)
  exact ⟨rejected_of_badSignature _ _ _ _ hloadU, rejected_of_badSignature _ _ _ _ hloadA,
    rejected_of_badSignature _ _ _ _ hloadR, rejected_of_badSignature _ _ _ _ hloadS,
    rejected_of_badSignature _ _ _ _ hloadT⟩

/-- C2 witness: the five tamper rejections evaluated at the test
payload. -/
theorem c2_tamper_detection_witness :
    (∀ b ∈ jsonEncode valueId42, b < 256) ∧
    (rejected jsonSerializer (tamperUpper (jsonSerializer.dumps valueId42 saltDefault))
        saltDefault ∧
      rejected jsonSerializer (tamperAppend (jsonSerializer.dumps valueId42 saltDefault))
        saltDefault ∧
      rejected jsonSerializer (tamperReplaceHead (jsonSerializer.dumps valueId42 saltDefault))
        saltDefault ∧
      rejected jsonSerializer (tamperStripSeps (jsonSerializer.dumps valueId42 saltDefault))
        saltDefault ∧
      rejected jsonSerializer (tamperTruncate (jsonSerializer.dumps valueId42 saltDefault))
        saltDefault) :=
  ⟨by decide, c2_tamper_detection valueId42 (by decide)⟩
